import Mathlib

/-!
# Verification of the `react-ripple-effect` event bus

Shallow embedding of the repository's core:
* `EventDriver` (src/lib/EventDriver.ts, async variant): listener registry
  (a JS `Map` from event keys to JS `Set`s of callbacks), `subscribe` with its
  returned unsubscribe closure, `trigger` with error isolation and promise
  aggregation, `cleanup`, and the introspection helpers.
* the debounce / throttle wrappers and the `useMonitorEvent` teardown logic
  (src/hooks/useMonitorEvent.ts).

JS `Set` objects are modelled the way the ECMAScript specification describes
their internals: an ordered list of slots, where `delete` empties a slot in
place and `add` appends, so that `forEach` (which walks the slot list by
index, re-reading its length each step) exhibits the observable live-iteration
behaviour of real JS sets.  Since a `Set` object can outlive its registry
entry (the unsubscribe closure re-reads `this.listeners.get(key)` while an
in-progress `forEach` keeps iterating the original object), sets live in a
heap addressed by ids and the registry maps keys to set ids.

Callbacks are identified by numeric ids; their observable behaviour when
invoked (registry mutations performed, and whether they return `undefined`,
return a promise, or throw synchronously) is given by an environment.
-/

namespace RippleEffect

/-- Argument lists passed through `trigger(key, ...args)`. -/
abbrev Args := List Int

/-! ## JS `Set` internals: slot lists -/

/-- Internal data of a JS `Set` of callbacks: ordered slots, where a deleted
element leaves an empty (`none`) slot, as in the ECMAScript `SetData` list. -/
abbrev SetData := List (Option Nat)

/-- The current members of a set, in insertion order (non-empty slots). -/
def setMembers (s : SetData) : List Nat := s.filterMap id

/-- JS `Set.prototype.has`. -/
def setHas (s : SetData) (c : Nat) : Bool := (setMembers s).contains c

/-- JS `Set.prototype.add`: no-op when present, otherwise append a slot. -/
def setAdd (s : SetData) (c : Nat) : SetData :=
  if setHas s c then s else s ++ [some c]

/-- JS `Set.prototype.delete`: empty the (first) slot holding `c`, in place. -/
def setDelete : SetData → Nat → SetData
  | [], _ => []
  | slot :: rest, c =>
    if slot = some c then none :: rest else slot :: setDelete rest c

/-- JS `Set.prototype.size`: number of non-empty slots. -/
def setSize (s : SetData) : Nat := (setMembers s).length

/-! ## JS `Map` over event keys (insertion-ordered, unique keys) -/

/-- JS `Map.prototype.get` on the insertion-ordered entry list. -/
def regGet : List (String × Nat) → String → Option Nat
  | [], _ => none
  | (k', v) :: rest, k => if k' = k then some v else regGet rest k

/-- JS `Map.prototype.delete`: remove the entry for `k` (keys are unique). -/
def regErase : List (String × Nat) → String → List (String × Nat)
  | [], _ => []
  | (k', v) :: rest, k =>
    if k' = k then rest else (k', v) :: regErase rest k

/-! ## Driver state -/

/-- State of one `EventDriver`: a heap of `Set` objects (index = set id) and
the `listeners` map from event keys to set ids. -/
structure DriverState where
  heap : List SetData
  reg : List (String × Nat)
  deriving Repr, DecidableEq

/-- The set object with id `sid` (absent ids read as empty). -/
def heapGet (heap : List SetData) (sid : Nat) : SetData := heap.getD sid []

/-- Constructor `new EventDriver()`: `this.listeners = new Map()`. -/
def initialState : DriverState := ⟨[], []⟩

/-- The slot list of the set registered under `k` (empty when `k` has no
Listener Set). -/
def keySlots (st : DriverState) (k : String) : SetData :=
  match regGet st.reg k with
  | none => []
  | some sid => heapGet st.heap sid

/-- Members currently subscribed under `k`, in insertion order. -/
def keyMembers (st : DriverState) (k : String) : List Nat :=
  setMembers (keySlots st k)

/-! ## Registry operations (EventDriver.ts) -/

/-- Core of `subscribe(key, callback)` after validation: lazily create the
Listener Set (`new Set([callback])`) or `listeners.add(callback)`. -/
def subscribeFn (st : DriverState) (k : String) (c : Nat) : DriverState :=
  match regGet st.reg k with
  | none => ⟨st.heap ++ [[some c]], st.reg ++ [(k, st.heap.length)]⟩
  | some sid => ⟨st.heap.set sid (setAdd (heapGet st.heap sid) c), st.reg⟩

/-- The unsubscribe closure returned by `subscribe`, applied to the driver
state: re-read `this.listeners.get(key)`; if absent, return; otherwise
`delete(callback)` and drop the key when the set became empty. -/
def unsubscribeFn (st : DriverState) (k : String) (c : Nat) : DriverState :=
  match regGet st.reg k with
  | none => st
  | some sid =>
    let s := setDelete (heapGet st.heap sid) c
    let heap' := st.heap.set sid s
    if setSize s = 0 then ⟨heap', regErase st.reg k⟩ else ⟨heap', st.reg⟩

/-- Method `cleanup()`: clear each registered set, then clear the map. -/
def cleanupFn (st : DriverState) : DriverState :=
  ⟨st.reg.foldl (fun h e => h.set e.2 []) st.heap, []⟩

/-- Method `getListenerCount(key)`. -/
def getListenerCount (st : DriverState) (k : String) : Nat :=
  match regGet st.reg k with
  | none => 0
  | some sid => setSize (heapGet st.heap sid)

/-- Method `hasListeners(key)`. -/
def hasListeners (st : DriverState) (k : String) : Bool :=
  getListenerCount st k > 0

/-- Method `getEventKeys()`. -/
def getEventKeys (st : DriverState) : List String := st.reg.map (·.1)

/-! ## Input validation (`_invalidateKey`, `_invalidateCallback`) -/

/-- JS values that may be passed where an event key is expected. -/
inductive JsVal where
  | vstr (s : String)
  | vnum (n : Int)
  | vbool (b : Bool)
  | vnull
  | vundef
  | vsym
  | vbigint (n : Int)
  deriving Repr, DecidableEq

/-- JS truthiness of a `JsVal` (`!key` is its negation). -/
def jsTruthy : JsVal → Bool
  | .vstr s => s ≠ ""
  | .vnum n => n ≠ 0
  | .vbool b => b
  | .vnull => false
  | .vundef => false
  | .vsym => true
  | .vbigint n => n ≠ 0

/-- The check `typeof key === 'string'`. -/
def isStringV : JsVal → Bool
  | .vstr _ => true
  | _ => false

/-- The guard of `_invalidateKey`: `!key || typeof key !== 'string'`;
`true` means the key is rejected (an `Error` is thrown). -/
def keyIsInvalid (key : JsVal) : Bool := !jsTruthy key || !isStringV key

/-- The string payload of a key that passed validation. -/
def keyString : JsVal → String
  | .vstr s => s
  | _ => ""

/-- JS values passed where a callback is expected: a function (identified by
its id) or anything else. -/
inductive CbVal where
  | func (id : Nat)
  | notFunc (v : JsVal)
  deriving Repr, DecidableEq

/-- The guard of `_invalidateCallback`: `typeof callback !== 'function'`. -/
def callbackIsInvalid : CbVal → Bool
  | .func _ => false
  | .notFunc _ => true

/-- The id of a callback value that passed validation. -/
def cbIdOf : CbVal → Nat
  | .func i => i
  | .notFunc _ => 0

/-- Errors surfaced to the immediate caller. -/
inductive DriverErr where
  | invalidKeyErr
  | invalidCallbackErr
  deriving Repr, DecidableEq

/-- Method `subscribe(key, callback)` including validation, run against a driver
state.  Returns the error thrown (if any), the state after the call (a throw
happens before any mutation, so the state passes through unchanged), and the
`(key, callback)` pair the returned unsubscribe closure captured. -/
def subscribeRun (st : DriverState) (key : JsVal) (cb : CbVal) :
    Option DriverErr × DriverState × Option (String × Nat) :=
  if keyIsInvalid key then (some .invalidKeyErr, st, none)
  else if callbackIsInvalid cb then (some .invalidCallbackErr, st, none)
  else (none, subscribeFn st (keyString key) (cbIdOf cb), some (keyString key, cbIdOf cb))

/-! ## Callback behaviour environments -/

/-- A registry mutation a callback may perform while it runs: invoking
`subscribe` on the driver (with a valid key and function), or invoking an
unsubscribe handle captured earlier. -/
inductive CbEffect where
  | subEff (key : String) (cb : Nat)
  | unsubEff (key : String) (cb : Nat)
  deriving Repr, DecidableEq

/-- How a callback returns: `undefined` (or any non-Promise value), a
promise (a pending computation), or a synchronous throw. -/
inductive CbRetKind where
  | runit
  | rpromise
  | rthrow
  deriving Repr, DecidableEq

/-- Observable behaviour of a callback when invoked: the registry mutations
it performs, then how it returns. -/
structure CbBeh where
  effects : List CbEffect
  ret : CbRetKind
  deriving Repr, DecidableEq

/-- A callback that does nothing and returns `undefined`. -/
def pureBeh : CbBeh := ⟨[], .runit⟩

/-- Apply one registry mutation performed by a running callback. -/
def applyEffect (st : DriverState) : CbEffect → DriverState
  | .subEff k c => subscribeFn st k c
  | .unsubEff k c => unsubscribeFn st k c

/-- Apply a callback's registry mutations in order. -/
def applyEffects (st : DriverState) (effs : List CbEffect) : DriverState :=
  effs.foldl applyEffect st

/-! ## Promises -/

/-- The promise values `trigger` builds: `Promise.resolve()`, the pending
computation returned by callback `i`, `p.catch(log)`, `Promise.all(ps)` and
`p.then(() => undefined)`. -/
inductive Prom where
  | presolved
  | pbase (i : Nat)
  | pcaught (p : Prom)
  | pall (ps : List Prom)
  | pthen (p : Prom)
  deriving Repr

/-- Whether a promise eventually resolves (rather than rejects), given the
eventual outcome `ok i` of each base pending computation.  `p.catch(handler)`
always resolves: on rejection the logging handler runs and its (undefined)
result resolves the derived promise. -/
def settleOk (ok : Nat → Bool) : Prom → Bool
  | .presolved => true
  | .pbase i => ok i
  | .pcaught _ => true
  | .pthen p => settleOk ok p
  | .pall ps => ps.attach.all fun x => settleOk ok x.1
termination_by p => sizeOf p
decreasing_by
  all_goals simp_wf
  all_goals (have h := List.sizeOf_lt_of_mem x.2; omega)

/-- The time at which a resolving promise settles, given the settle time
`t i` of each base pending computation: `Promise.all` of resolving promises
resolves once the last of them has settled. -/
def settleTime (t : Nat → Nat) : Prom → Nat
  | .presolved => 0
  | .pbase i => t i
  | .pcaught p => settleTime t p
  | .pthen p => settleTime t p
  | .pall ps => (ps.attach.map fun x => settleTime t x.1).foldr max 0
termination_by p => sizeOf p
decreasing_by
  all_goals simp_wf
  all_goals (have h := List.sizeOf_lt_of_mem x.2; omega)

/-! ## `trigger(key, ...args)` -/

/-- The `listeners.forEach` loop of `trigger`, following the ECMAScript
iteration of a live `Set`: walk the slot list of set object `sid` by index,
re-reading it (and its length) from the heap at every step, skipping emptied
slots; invoke each member (recording `(member, args)` in the invocation log),
apply the registry mutations it performs, record the pending computation when
it returns a promise, and swallow synchronous throws (`try`/`catch` with
`console.error`) so the loop continues.  The callback-supplied fuel bounds the
number of iterations (a callback that keeps enlarging the set makes the real
loop diverge); `none` means the fuel ran out. -/
def forEachFuel (env : Nat → CbBeh) (args : Args) (sid : Nat) :
    Nat → Nat → DriverState → List (Nat × Args) → List Nat →
    Option (DriverState × List (Nat × Args) × List Nat)
  | 0, _, _, _, _ => none
  | fuel + 1, idx, st, log, proms =>
    let slots := heapGet st.heap sid
    if idx < slots.length then
      match slots.getD idx none with
      | none => forEachFuel env args sid fuel (idx + 1) st log proms
      | some c =>
        let st' := applyEffects st (env c).effects
        let log' := log ++ [(c, args)]
        match (env c).ret with
        | .runit => forEachFuel env args sid fuel (idx + 1) st' log' proms
        | .rthrow => forEachFuel env args sid fuel (idx + 1) st' log' proms
        | .rpromise => forEachFuel env args sid fuel (idx + 1) st' log' (proms ++ [c])
    else some (st, log, proms)

/-- Everything observable about one `trigger` call: the driver state after
the synchronous dispatch loop, the invocation log, the recorded pending
computations (in recording order) and the returned promise. -/
structure TriggerResult where
  st : DriverState
  log : List (Nat × Args)
  recorded : List Nat
  future : Prom
  deriving Repr

/-- Method `trigger(key, ...args)`: validate the key; with no Listener Set return
`Promise.resolve()`; otherwise run the dispatch loop over the current set
object and return `Promise.all(promises).then(() => undefined)` when pending
computations were recorded, else `Promise.resolve()`.  First component: the
error thrown synchronously, if any; second: the result (`none` on fuel
exhaustion). -/
def triggerRun (env : Nat → CbBeh) (st : DriverState) (key : JsVal)
    (args : Args) (fuel : Nat) : Option DriverErr × Option TriggerResult :=
  if keyIsInvalid key then (some .invalidKeyErr, none)
  else
    match regGet st.reg (keyString key) with
    | none => (none, some ⟨st, [], [], .presolved⟩)
    | some sid =>
      match forEachFuel env args sid fuel 0 st [] [] with
      | none => (none, none)
      | some (st', log, proms) =>
        (none, some ⟨st', log, proms,
          if proms.length > 0 then
            .pthen (.pall (proms.map fun i => .pcaught (.pbase i)))
          else .presolved⟩)

/-! ## Call sequences against one driver (for the registry invariant) -/

/-- One registry-mutating call a client can make on a bus: `subscribe` (with
arbitrary, possibly invalid, arguments), invoking an unsubscribe handle
issued for `(k, c)`, or `cleanup()`. -/
inductive BusOp where
  | sub (key : JsVal) (cb : CbVal)
  | unsub (k : String) (c : Nat)
  | clean
  deriving Repr, DecidableEq

/-- Run one call against the driver state (a `subscribe` that throws leaves
the state unchanged). -/
def applyOp (st : DriverState) : BusOp → DriverState
  | .sub key cb => (subscribeRun st key cb).2.1
  | .unsub k c => unsubscribeFn st k c
  | .clean => cleanupFn st

/-- Run a call sequence from a state. -/
def applyOps (st : DriverState) (ops : List BusOp) : DriverState :=
  ops.foldl applyOp st

/-! ## Call-rate wrappers (src/hooks/useMonitorEvent.ts)

Timer-based code is modelled with explicit discrete time: a pending
`setTimeout` is a pair of its fire time and the argument list its closure
captured.  A wrapper is driven by the list of its invocation events
`(time, args)`, in non-decreasing time order; the model fires a pending timer
before processing any invocation at or after its fire time, and fires the
still-pending timer at the end of the run.  The output is the list of
`(time, args)` invocations of the underlying callback. -/

/-- One invocation of the closure returned by `createDebouncedCallback`:
`clearTimeout` any pending timer, then `setTimeout` the underlying call with
these arguments for `delay` later.  The state is the closure's `timeoutId`
(with the fire time and captured arguments of the scheduled call). -/
def debounceCall (delay : Nat) (st : Option (Nat × Args)) (t : Nat)
    (args : Args) : Option (Nat × Args) :=
  match st with
  | some _ => some (t + delay, args)
  | none => some (t + delay, args)

/-- Drive a debounced wrapper through its invocation events; the pending
timer fires (invoking the underlying callback and nulling `timeoutId`)
before any event at or past its fire time, and at the end of the run. -/
def debounceRun (delay : Nat) :
    Option (Nat × Args) → List (Nat × Args) → List (Nat × Args)
  | none, [] => []
  | some (ft, fa), [] => [(ft, fa)]
  | none, (t, a) :: rest => debounceRun delay (debounceCall delay none t a) rest
  | some (ft, fa), (t, a) :: rest =>
    if ft ≤ t then
      (ft, fa) :: debounceRun delay (debounceCall delay none t a) rest
    else
      debounceRun delay (debounceCall delay (some (ft, fa)) t a) rest

/-- Closure state of `createThrottledCallback`: `lastCallTime`, `timeoutId`
(fire time of the scheduled trailing call) and `pendingArgs`. -/
structure ThrottleState where
  lastCallTime : Nat
  timeoutId : Option Nat
  pendingArgs : Option Args
  deriving Repr, DecidableEq

/-- Initial closure state: `lastCallTime = 0`, no timer, no pending args. -/
def throttleInit : ThrottleState := ⟨0, none, none⟩

/-- One invocation of the closure returned by `createThrottledCallback` at
time `now`: if `now - lastCallTime ≥ delay`, fire the underlying callback
immediately (second component: the underlying invocations this step emits),
update `lastCallTime` and cancel any pending trailing call; otherwise buffer
the arguments as `pendingArgs` and, when no trailing timer is scheduled,
schedule one for `delay - timeSinceLastCall` later. -/
def throttleCall (delay : Nat) (st : ThrottleState) (now : Nat)
    (args : Args) : ThrottleState × List (Nat × Args) :=
  let timeSinceLastCall := now - st.lastCallTime
  if delay ≤ timeSinceLastCall then
    (⟨now, none, none⟩, [(now, args)])
  else
    match st.timeoutId with
    | none =>
      (⟨st.lastCallTime, some (now + (delay - timeSinceLastCall)), some args⟩, [])
    | some ft => (⟨st.lastCallTime, some ft, some args⟩, [])

/-- The trailing `setTimeout` handler firing at time `ft`: if arguments are
buffered, fire the underlying callback with them, update `lastCallTime`, and
clear the buffer; either way null out `timeoutId`. -/
def throttleFire (st : ThrottleState) (ft : Nat) :
    ThrottleState × List (Nat × Args) :=
  match st.pendingArgs with
  | some pa => (⟨ft, none, none⟩, [(ft, pa)])
  | none => (⟨st.lastCallTime, none, st.pendingArgs⟩, [])

/-- Process one invocation event of a throttled wrapper at time `t`: first
fire the trailing timer if its fire time has been reached, then run the
closure body. -/
def throttleStep (delay : Nat) (st : ThrottleState) (t : Nat) (a : Args) :
    ThrottleState × List (Nat × Args) :=
  match st.timeoutId with
  | some ft =>
    if ft ≤ t then
      let fired := throttleFire st ft
      let called := throttleCall delay fired.1 t a
      (called.1, fired.2 ++ called.2)
    else throttleCall delay st t a
  | none => throttleCall delay st t a

/-- Drive a throttled wrapper through its invocation events; the trailing
timer still pending at the end of the run fires then. -/
def throttleRun (delay : Nat) : ThrottleState → List (Nat × Args) → List (Nat × Args)
  | st, [] =>
    match st.timeoutId with
    | some ft => (throttleFire st ft).2
    | none => []
  | st, (t, a) :: rest =>
    let step := throttleStep delay st t a
    step.2 ++ throttleRun delay step.1 rest

/-! ## `useMonitorEvent` lifecycle (subscription effect and its cleanup)

State of one mounted `useMonitorEvent` subscription with a debounced handler:
the table of `setTimeout` timers (index = timer id; `none` = cleared or
fired), whether the listener is currently subscribed, the debounce closure's
`timeoutId`, and the timer ids held in `timeoutRefsRef.current` (the map the
effect cleanup will `clearTimeout`). -/

structure MonitorState where
  timers : List (Option (Nat × Args))
  subscribed : Bool
  debTimeoutId : Option Nat
  timeoutRefs : List Nat
  deriving Repr, DecidableEq

/-- The mount effect (useMonitorEvent.ts lines 119-188): `timeoutRefsRef`
starts as an empty `Map` and — decisively — no statement in the hook or in
`createDebouncedCallback`/`createThrottledCallback` ever inserts a timer id
into it, so `timeoutRefs` is empty at mount and stays empty. -/
def monitorMount : MonitorState := ⟨[], true, none, []⟩

/-- The registry dispatching an event to the debounced wrapper at time `t`
(only while subscribed): the wrapper body clears its own pending timer via
its closure `timeoutId`, allocates a fresh timer firing `delay` later with
these arguments, and stores the new id in the closure only —
`timeoutRefsRef` is not touched. -/
def monitorDebCall (delay : Nat) (st : MonitorState) (t : Nat) (a : Args) :
    MonitorState :=
  if st.subscribed then
    let timers1 :=
      match st.debTimeoutId with
      | some i => st.timers.set i none
      | none => st.timers
    ⟨timers1 ++ [some (t + delay, a)], st.subscribed, some timers1.length,
      st.timeoutRefs⟩
  else st

/-- The effect cleanup (useMonitorEvent.ts lines 191-203): call every issued
unsubscribe handle, then `clearTimeout` every timer id found in
`timeoutRefsRef.current` and clear that map. -/
def monitorTeardown (st : MonitorState) : MonitorState :=
  ⟨st.timeoutRefs.foldl (fun ts i => ts.set i none) st.timers, false,
    st.debTimeoutId, []⟩

/-- The timers still live in the table: each will fire at its recorded time,
invoking the underlying callback with its captured arguments. -/
def liveTimers (st : MonitorState) : List (Nat × Args) :=
  st.timers.filterMap id

/-! ## Spec-side predicates and invariants -/

/-- Modelled from the spec: "key is missing, not a string, or empty";
stated from those words, to be compared with the code's `keyIsInvalid`. -/
def specKeyInvalid : JsVal → Bool
  | .vstr s => s = ""
  | _ => true

/-- A well-formed `Set` object: no member occupies two slots (JS set
semantics guarantee this for every reachable set). -/
def SetWF (s : SetData) : Prop := (setMembers s).Nodup

/-- Well-formedness of a driver state, as JS guarantees for every reachable
`EventDriver`: keys are unique in the map, no two keys share a `Set` object,
registered set ids point into the heap, and every registered set is
well-formed. -/
def StateWF (st : DriverState) : Prop :=
  (st.reg.map (·.1)).Nodup ∧
  (st.reg.map (·.2)).Nodup ∧
  (∀ e ∈ st.reg, e.2 < st.heap.length) ∧
  (∀ e ∈ st.reg, SetWF (heapGet st.heap e.2))

/-- The registry invariant of claim C10: every key present in the map holds
a non-empty Listener Set. -/
def RegNonempty (st : DriverState) : Prop :=
  ∀ e ∈ st.reg, 1 ≤ setSize (heapGet st.heap e.2)

/-- Combined reachable-state invariant. -/
def DriverInv (st : DriverState) : Prop := StateWF st ∧ RegNonempty st

/-! ## Concrete fixtures for the dispatch-mutation counterexample -/

/-- Environment where callback `0`, when invoked, subscribes callback `1`
under key `"k"` (and returns `undefined`); every other callback is inert. -/
def cexEnv : Nat → CbBeh := fun n =>
  if n = 0 then ⟨[.subEff "k" 1], .runit⟩ else pureBeh

/-- Driver with exactly callback `0` subscribed under `"k"`. -/
def cexSt : DriverState := ⟨[[some 0]], [("k", 0)]⟩

/-! # Theorems -/

/-! ## Validation -/

/-- The code's key guard coincides with "missing, not a string, or empty". -/
theorem keyIsInvalid_eq_spec (key : JsVal) :
    keyIsInvalid key = specKeyInvalid key := by
  cases key <;> simp [keyIsInvalid, specKeyInvalid, jsTruthy, isStringV]

/-- A valid key is exactly a non-empty string literal. -/
theorem specKeyInvalid_false_iff (key : JsVal) :
    specKeyInvalid key = false ↔ ∃ s, key = .vstr s ∧ s ≠ "" := by
  cases key <;> simp [specKeyInvalid]

/-- For a valid key, `trigger` never surfaces an error, whatever the
listeners do. -/
theorem trigger_fst_none_of_valid (env : Nat → CbBeh) (st : DriverState)
    (key : JsVal) (args : Args) (fuel : Nat)
    (hk : keyIsInvalid key = false) :
    (triggerRun env st key args fuel).1 = none := by
  unfold triggerRun
  simp only [hk, Bool.false_eq_true, if_false]
  cases hreg : regGet st.reg (keyString key) with
  | none => rfl
  | some sid =>
    rcases hfe : forEachFuel env args sid fuel 0 st [] [] with _ | ⟨st', lg, pr⟩ <;>
      simp [hfe]

/-- C4: `subscribe(key, callback)` and `trigger(key, ...)` throw `InvalidKey`
synchronously exactly when the key is missing, not a string, or an empty
string (the code's `!key || typeof key !== 'string'` guard coincides with
that characterisation); the check precedes every other effect — `trigger`
rejects an invalid key in every state, even with zero listeners, before any
listener lookup — and `subscribe` additionally throws `InvalidCallback`
exactly when the callback is not invocable, the registry being left
unchanged on either failure. -/
theorem C4_validation (st : DriverState) (key : JsVal) (cb : CbVal)
    (env : Nat → CbBeh) (args : Args) (fuel : Nat) :
    (keyIsInvalid key = specKeyInvalid key) ∧
    ((subscribeRun st key cb).1 = some .invalidKeyErr ↔
      specKeyInvalid key = true) ∧
    (specKeyInvalid key = false →
      ((subscribeRun st key cb).1 = some .invalidCallbackErr ↔
        callbackIsInvalid cb = true)) ∧
    ((subscribeRun st key cb).1 ≠ none → (subscribeRun st key cb).2.1 = st) ∧
    (specKeyInvalid key = true →
      triggerRun env st key args fuel = (some .invalidKeyErr, none)) ∧
    (specKeyInvalid key = false → (triggerRun env st key args fuel).1 = none) := by
  have hspec := keyIsInvalid_eq_spec key
  refine ⟨hspec, ?_, ?_, ?_, ?_, ?_⟩
  · unfold subscribeRun
    rw [hspec]
    cases h : specKeyInvalid key <;> cases hcb : callbackIsInvalid cb <;> simp
  · intro hvalid
    unfold subscribeRun
    rw [hspec, hvalid]
    cases hcb : callbackIsInvalid cb <;> simp
  · unfold subscribeRun
    rw [hspec]
    cases h : specKeyInvalid key <;> cases hcb : callbackIsInvalid cb <;> simp
  · intro hinvalid
    unfold triggerRun
    rw [hspec, hinvalid]
    rfl
  · intro hvalid
    exact trigger_fst_none_of_valid env st key args fuel (hspec.trans hvalid)

/-- Witness for C4 at concrete inputs: `undefined` key rejected as
`InvalidKey`, non-function callback rejected as `InvalidCallback`, `trigger`
of the empty string rejected before touching the (empty) registry. -/
theorem C4_validation_witness :
    (subscribeRun initialState .vundef (.func 3)).1 = some .invalidKeyErr ∧
    (subscribeRun initialState (.vstr "k") (.notFunc .vnull)).1 =
      some .invalidCallbackErr ∧
    triggerRun (fun _ => pureBeh) initialState (.vstr "") [] 3 =
      (some .invalidKeyErr, none) := by
  refine ⟨?_, ?_, ?_⟩
  · exact ((C4_validation initialState .vundef (.func 3)
      (fun _ => pureBeh) [] 3).2.1).mpr (by decide)
  · exact ((C4_validation initialState (.vstr "k") (.notFunc .vnull)
      (fun _ => pureBeh) [] 3).2.2.1 (by decide)).mpr (by decide)
  · exact (C4_validation initialState (.vstr "") (.func 0)
      (fun _ => pureBeh) [] 3).2.2.2.2.1 (by decide)

/-! ## Teardown of the `useMonitorEvent` subscription (claim C9) -/

/-- C9 fails on the code: with a debounce(100) handler, one event dispatched
at t = 0 leaves a wrapper timer scheduled for t = 100; the effect cleanup at
t = 10 unsubscribes the listener but its `clearTimeout` loop runs over
`timeoutRefsRef`, which no code path ever populated, so the timer is still
live after teardown and invokes the underlying callback at t = 100 — after
the owner is gone.  This theorem evaluates the model at that failing input. -/
theorem C9_teardown_timer_survives :
    (monitorTeardown (monitorDebCall 100 monitorMount 0 [5])).subscribed
        = false ∧
    (monitorTeardown (monitorDebCall 100 monitorMount 0 [5])).timeoutRefs
        = [] ∧
    liveTimers (monitorTeardown (monitorDebCall 100 monitorMount 0 [5]))
        = [(100, [5])] := by
  refine ⟨rfl, rfl, rfl⟩

/-! ## Dispatch iterates the live Listener Set (claim C1) -/

/-- The snapshot clause of C1 fails on the code: `trigger` iterates the live
`Set` (`listeners.forEach`), so when callback `0` subscribes callback `1`
under the triggered key during dispatch, the in-progress run also invokes
callback `1`, which was not a member at trigger time. -/
theorem C1_snapshot_counterexample :
    keyMembers cexSt "k" = [0] ∧
    ((triggerRun cexEnv cexSt (.vstr "k") [] 5).2.map TriggerResult.log) =
      some [(0, []), (1, [])] := by
  refine ⟨rfl, ?_⟩
  decide

/-! ## Debounce (claim C7) -/

/-- After a call at time `tc` the pending debounce timer sits at
`tc + delay`; as long as every further call arrives within `delay` of the
previous one, the timer never fires in between, each call replaces it, and
the single eventual fire carries the last call's time and arguments. -/
theorem debounce_burst_aux (delay : Nat) (calls : List (Nat × Args)) :
    ∀ (tc : Nat) (ac : Args),
      List.Chain' (fun p q => p.1 ≤ q.1 ∧ q.1 < p.1 + delay) ((tc, ac) :: calls) →
      debounceRun delay (some (tc + delay, ac)) calls =
        [((((tc, ac) :: calls).getLast (List.cons_ne_nil _ _)).1 + delay,
          (((tc, ac) :: calls).getLast (List.cons_ne_nil _ _)).2)] := by
  induction calls with
  | nil => intro tc ac _; simp [debounceRun]
  | cons p rest ih =>
    obtain ⟨t, a⟩ := p
    intro tc ac h
    rw [List.chain'_cons] at h
    obtain ⟨⟨hle, hlt⟩, htail⟩ := h
    have hnofire : ¬ (tc + delay ≤ t) := by omega
    simp only [debounceRun, debounceCall, if_neg hnofire]
    rw [ih t a htail]
    simp [List.getLast_cons]

/-- C7: every invocation of a debounced wrapper cancels the pending timer
(whatever its state), remembers the latest arguments and schedules the single
next fire for `delay` later; consequently a non-empty burst of calls, each
arriving no earlier than and less than `delay` after the previous one,
produces exactly one underlying invocation, carrying the last call's
arguments at the last call's time plus `delay`. -/
theorem C7_debounce (delay : Nat) (calls : List (Nat × Args)) (hne : calls ≠ [])
    (hburst : List.Chain' (fun p q => p.1 ≤ q.1 ∧ q.1 < p.1 + delay) calls) :
    (∀ st t a, debounceCall delay st t a = some (t + delay, a)) ∧
    debounceRun delay none calls =
      [((calls.getLast hne).1 + delay, (calls.getLast hne).2)] := by
  constructor
  · intro st t a; cases st <;> rfl
  · obtain ⟨⟨t, a⟩, rest, rfl⟩ : ∃ p rest, calls = p :: rest := by
      cases calls with
      | nil => exact absurd rfl hne
      | cons p r => exact ⟨p, r, rfl⟩
    simp only [debounceRun, debounceCall]
    exact debounce_burst_aux delay rest t a hburst

/-- Witness for C7: three calls at 0, 5 and 10 ms under debounce(100) yield
one underlying invocation at 110 ms with the third call's arguments. -/
theorem C7_debounce_witness :
    debounceRun 100 none [(0, [1]), (5, [2]), (10, [3])] = [(110, [3])] := by
  simpa using
    (C7_debounce 100 [(0, [1]), (5, [2]), (10, [3])] (by decide)
      (by simp [List.chain'_cons])).2

/-! ## Dispatch loop: no-mutation runs -/

/-- Running no effects leaves the driver state unchanged. -/
theorem applyEffects_nil (st : DriverState) : applyEffects st [] = st := rfl

/-- Dispatch loop behaviour when no still-to-be-visited member mutates the registry:
the state comes back unchanged and the members from slot `idx` on are
invoked in slot order with the original arguments, the promise-returning
ones being recorded in the same order. -/
theorem forEach_no_mutation (env : Nat → CbBeh) (args : Args) (sid : Nat) :
    ∀ (n idx : Nat) (st : DriverState) (log : List (Nat × Args))
      (proms : List Nat),
      (∀ c ∈ setMembers ((heapGet st.heap sid).drop idx), (env c).effects = []) →
      (heapGet st.heap sid).length - idx < n →
      forEachFuel env args sid n idx st log proms =
        some (st,
          log ++ (setMembers ((heapGet st.heap sid).drop idx)).map
            (fun c => (c, args)),
          proms ++ (setMembers ((heapGet st.heap sid).drop idx)).filter
            (fun c => (env c).ret = CbRetKind.rpromise)) := by
  intro n
  induction n with
  | zero => intro idx st log proms _ hfuel; omega
  | succ m ih =>
    intro idx st log proms heff hfuel
    by_cases hidx : idx < (heapGet st.heap sid).length
    · have hdrop : (heapGet st.heap sid).drop idx =
          (heapGet st.heap sid)[idx] :: (heapGet st.heap sid).drop (idx + 1) :=
        List.drop_eq_getElem_cons hidx
      have hgetD : (heapGet st.heap sid).getD idx none =
          (heapGet st.heap sid)[idx] := by
        simp [List.getD, List.getElem?_eq_getElem hidx]
      rw [forEachFuel]
      simp only [if_pos hidx, hgetD]
      cases hslot : (heapGet st.heap sid)[idx] with
      | none =>
        rw [hslot] at hdrop
        have hmemn : setMembers ((heapGet st.heap sid).drop idx) =
            setMembers ((heapGet st.heap sid).drop (idx + 1)) := by
          rw [hdrop]; simp [setMembers]
        have heff' : ∀ c ∈ setMembers ((heapGet st.heap sid).drop (idx + 1)),
            (env c).effects = [] := fun c hc => heff c (hmemn ▸ hc)
        simp [ih (idx + 1) st log proms heff' (by omega), hmemn]
      | some c =>
        rw [hslot] at hdrop
        have hmem : setMembers ((heapGet st.heap sid).drop idx) =
            c :: setMembers ((heapGet st.heap sid).drop (idx + 1)) := by
          rw [hdrop]; simp [setMembers]
        have hcmem : c ∈ setMembers ((heapGet st.heap sid).drop idx) := by
          rw [hmem]; exact List.mem_cons_self c _
        have hceff : (env c).effects = [] := heff c hcmem
        have heff' : ∀ c' ∈ setMembers ((heapGet st.heap sid).drop (idx + 1)),
            (env c').effects = [] := fun c' hc' =>
          heff c' (hmem ▸ List.mem_cons_of_mem c hc')
        simp only [hceff, applyEffects_nil]
        cases hret : (env c).ret with
        | runit =>
          simp [ih (idx + 1) st (log ++ [(c, args)]) proms heff' (by omega),
            hmem, hret, List.filter_cons]
        | rthrow =>
          simp [ih (idx + 1) st (log ++ [(c, args)]) proms heff' (by omega),
            hmem, hret, List.filter_cons]
        | rpromise =>
          simp [ih (idx + 1) st (log ++ [(c, args)]) (proms ++ [c]) heff'
            (by omega), hmem, hret, List.filter_cons]
    · rw [forEachFuel]
      simp only [if_neg hidx]
      have hnil : (heapGet st.heap sid).drop idx = [] :=
        List.drop_eq_nil_of_le (by omega)
      simp [hnil, setMembers]

/-- The synchronous dispatch (final state and invocation log) depends only
on the registry mutations the callbacks perform, never on how they return:
replacing any callback's return behaviour (normal return, returned promise,
synchronous throw) leaves the loop's state and invocation log unchanged —
the `try`/`catch` isolation in action. -/
theorem forEach_ret_irrelevant (env env' : Nat → CbBeh)
    (heff : ∀ c, (env c).effects = (env' c).effects) (args : Args) (sid : Nat) :
    ∀ (n idx : Nat) (st : DriverState) (log : List (Nat × Args))
      (proms proms' : List Nat),
      ((forEachFuel env args sid n idx st log proms).map fun o => (o.1, o.2.1)) =
      ((forEachFuel env' args sid n idx st log proms').map fun o => (o.1, o.2.1)) := by
  intro n
  induction n with
  | zero => intro idx st log proms proms'; rfl
  | succ m ih =>
    intro idx st log proms proms'
    rw [forEachFuel, forEachFuel]
    by_cases hidx : idx < (heapGet st.heap sid).length
    · simp only [if_pos hidx]
      cases hslot : (heapGet st.heap sid).getD idx none with
      | none => exact ih (idx + 1) st log proms proms'
      | some c =>
        simp only [heff c]
        cases (env c).ret <;> cases (env' c).ret <;>
          exact ih (idx + 1) (applyEffects st ((env' c).effects))
            (log ++ [(c, args)]) _ _
    · simp only [if_neg hidx]; rfl

/-! ## Promise aggregation -/

/-- A `Promise.all` over caught promises always resolves. -/
theorem settleOk_caught_all (ok : Nat → Bool) (ps : List Nat) :
    settleOk ok (.pall (ps.map fun i => .pcaught (.pbase i))) = true := by
  rw [settleOk]
  rw [List.all_eq_true]
  rintro ⟨p, hp⟩ _
  obtain ⟨i, _, rfl⟩ := List.mem_map.mp hp
  simp [settleOk]

/-- A `Promise.all` over the caught pending computations settles at the
latest of their settle times. -/
theorem settleTime_pall_caught (t : Nat → Nat) (ps : List Nat) :
    settleTime t (.pall (ps.map fun i => .pcaught (.pbase i))) =
      (ps.map t).foldr max 0 := by
  rw [settleTime]
  congr 1
  rw [List.attach_map_coe, List.map_map]
  apply List.map_congr_left
  intro i _
  simp [settleTime, Function.comp]

/-! ## Heap and registry access lemmas -/

theorem heapGet_append_length (heap : List SetData) (x : SetData) :
    heapGet (heap ++ [x]) heap.length = x := by
  simp [heapGet, List.getD]

theorem heapGet_set_self (heap : List SetData) (sid : Nat) (x : SetData)
    (h : sid < heap.length) : heapGet (heap.set sid x) sid = x := by
  simp [heapGet, List.getD, List.getElem?_set_self, h]

theorem heapGet_set_ne (heap : List SetData) (sid sid' : Nat) (x : SetData)
    (h : sid ≠ sid') : heapGet (heap.set sid x) sid' = heapGet heap sid' := by
  simp [heapGet, List.getD, List.getElem?_set_ne, h]

theorem heapGet_append_lt (heap : List SetData) (x : SetData) (sid : Nat)
    (h : sid < heap.length) : heapGet (heap ++ [x]) sid = heapGet heap sid := by
  simp [heapGet, List.getD, List.getElem?_append_left, h]

theorem regGet_append_right (reg : List (String × Nat)) (k : String) (v : Nat)
    (h : regGet reg k = none) : regGet (reg ++ [(k, v)]) k = some v := by
  induction reg with
  | nil => simp [regGet]
  | cons e rest ih =>
    obtain ⟨k', v'⟩ := e
    by_cases hk : k' = k
    · rw [regGet, if_pos hk] at h; exact absurd h (by simp)
    · rw [regGet, if_neg hk] at h
      rw [List.cons_append, regGet, if_neg hk]
      exact ih h

theorem regGet_none_iff (reg : List (String × Nat)) (k : String) :
    regGet reg k = none ↔ k ∉ reg.map (·.1) := by
  induction reg with
  | nil => simp [regGet]
  | cons e rest ih =>
    obtain ⟨k', v'⟩ := e
    by_cases hk : k' = k
    · subst hk; simp [regGet]
    · simp [regGet, if_neg hk, ih, Ne.symm hk]

theorem regGet_mem (reg : List (String × Nat)) (k : String) (v : Nat)
    (h : regGet reg k = some v) : (k, v) ∈ reg := by
  induction reg with
  | nil => simp [regGet] at h
  | cons e rest ih =>
    obtain ⟨k', v'⟩ := e
    by_cases hk : k' = k
    · rw [regGet, if_pos hk] at h
      subst hk
      obtain rfl : v' = v := by simpa using h
      exact List.mem_cons_self _ _
    · rw [regGet, if_neg hk] at h
      exact List.mem_cons_of_mem _ (ih h)

theorem regErase_sublist (reg : List (String × Nat)) (k : String) :
    (regErase reg k).Sublist reg := by
  induction reg with
  | nil => simp [regErase]
  | cons e rest ih =>
    obtain ⟨k', v'⟩ := e
    by_cases hk : k' = k
    · rw [regErase, if_pos hk]; exact List.sublist_cons_self _ _
    · rw [regErase, if_neg hk]; exact ih.cons₂ _

theorem regGet_erase_ne (reg : List (String × Nat)) (k k' : String)
    (h : k' ≠ k) : regGet (regErase reg k) k' = regGet reg k' := by
  induction reg with
  | nil => simp [regErase]
  | cons e rest ih =>
    obtain ⟨k'', v''⟩ := e
    by_cases hk : k'' = k
    · subst hk
      rw [regErase, if_pos rfl, regGet, if_neg (fun he => h he.symm)]
    · rw [regErase, if_neg hk, regGet, regGet]
      by_cases hk' : k'' = k'
      · rw [if_pos hk', if_pos hk']
      · rw [if_neg hk', if_neg hk']; exact ih

theorem regGet_erase_self (reg : List (String × Nat)) (k : String)
    (hnd : (reg.map (·.1)).Nodup) : regGet (regErase reg k) k = none := by
  induction reg with
  | nil => simp [regErase, regGet]
  | cons e rest ih =>
    obtain ⟨k', v'⟩ := e
    simp only [List.map_cons, List.nodup_cons] at hnd
    by_cases hk : k' = k
    · rw [regErase, if_pos hk]
      rw [regGet_none_iff]
      rw [hk] at hnd
      exact hnd.1
    · rw [regErase, if_neg hk, regGet, if_neg hk]
      exact ih hnd.2

theorem keyString_vstr (s : String) : keyString (.vstr s) = s := rfl

theorem keyIsInvalid_vstr_false (s : String) (hs : s ≠ "") :
    keyIsInvalid (.vstr s) = false := by
  simp [keyIsInvalid, jsTruthy, isStringV, hs]

/-- Unfolding `trigger` for a valid key with no Listener Set. -/
theorem triggerRun_valid_none (env : Nat → CbBeh) (st : DriverState)
    (key : JsVal) (args : Args) (fuel : Nat)
    (hk : keyIsInvalid key = false)
    (hreg : regGet st.reg (keyString key) = none) :
    triggerRun env st key args fuel =
      (none, some ⟨st, [], [], .presolved⟩) := by
  rw [triggerRun]
  simp [hk, hreg]

/-- Unfolding `trigger` for a valid key with a Listener Set. -/
theorem triggerRun_valid_some (env : Nat → CbBeh) (st : DriverState)
    (key : JsVal) (args : Args) (fuel : Nat) (sid : Nat)
    (hk : keyIsInvalid key = false)
    (hreg : regGet st.reg (keyString key) = some sid) :
    triggerRun env st key args fuel =
      match forEachFuel env args sid fuel 0 st [] [] with
      | none => (none, none)
      | some (st', log, proms) =>
        (none, some ⟨st', log, proms,
          if proms.length > 0 then
            .pthen (.pall (proms.map fun i => .pcaught (.pbase i)))
          else .presolved⟩) := by
  rw [triggerRun]
  simp [hk, hreg]

/-- Shape of the future `trigger` returns: already resolved when no pending
computation was recorded, and in general resolving — never rejecting — at
the latest settle time of the recorded pending computations. -/
theorem trigger_future_props (env : Nat → CbBeh) (st : DriverState)
    (key : JsVal) (args : Args) (fuel : Nat) :
    ∀ r, (triggerRun env st key args fuel).2 = some r →
      (r.recorded = [] → r.future = .presolved) ∧
      (∀ ok, settleOk ok r.future = true) ∧
      (∀ t, settleTime t r.future = (r.recorded.map t).foldr max 0) := by
  intro r hr
  rw [triggerRun] at hr
  cases hk : keyIsInvalid key with
  | true => rw [hk] at hr; simp at hr
  | false =>
    rw [hk] at hr
    simp only [Bool.false_eq_true, if_false] at hr
    cases hreg : regGet st.reg (keyString key) with
    | none =>
      simp only [hreg] at hr
      obtain rfl : (⟨st, [], [], .presolved⟩ : TriggerResult) = r :=
        Option.some.inj hr
      refine ⟨fun _ => rfl, fun ok => by simp [settleOk], fun t => by simp [settleTime]⟩
    | some sid =>
      simp only [hreg] at hr
      cases hfe : forEachFuel env args sid fuel 0 st [] [] with
      | none => simp only [hfe] at hr; simp at hr
      | some out =>
        obtain ⟨st', log, proms⟩ := out
        simp only [hfe] at hr
        obtain rfl : (⟨st', log, proms,
            if proms.length > 0 then
              .pthen (.pall (proms.map fun i => .pcaught (.pbase i)))
            else .presolved⟩ : TriggerResult) = r := Option.some.inj hr
        refine ⟨?_, ?_, ?_⟩
        · intro hrec
          simp only at hrec
          simp [hrec]
        · intro ok
          by_cases hp : proms.length > 0
          · simp only [hp, if_pos]
            rw [settleOk]
            exact settleOk_caught_all ok proms
          · simp [hp, settleOk]
        · intro t
          by_cases hp : proms.length > 0
          · simp only [hp, if_pos]
            rw [settleTime]
            exact settleTime_pall_caught t proms
          · have hnil : proms = [] := by
              cases proms with
              | nil => rfl
              | cons a l => simp at hp
            simp [hp, hnil, settleTime]

/-- C2: `trigger` returns an already-completed future immediately when no
Listener Set exists for the key; when no pending computations were recorded
the returned future is `Promise.resolve()` — already resolved by the time
`trigger` returns; and in general the returned future resolves (never
rejects) exactly once the last of the recorded pending computations has
resolved or been isolated as a failure. -/
theorem C2_trigger_future (env : Nat → CbBeh) (st : DriverState) (key : JsVal)
    (args : Args) (fuel : Nat) :
    (keyIsInvalid key = false → regGet st.reg (keyString key) = none →
      triggerRun env st key args fuel = (none, some ⟨st, [], [], .presolved⟩)) ∧
    (∀ r, (triggerRun env st key args fuel).2 = some r →
      (r.recorded = [] → r.future = .presolved) ∧
      (∀ ok, settleOk ok r.future = true) ∧
      (∀ t, settleTime t r.future = (r.recorded.map t).foldr max 0)) := by
  constructor
  · intro hk hreg
    rw [triggerRun]
    simp [hk, hreg]
  · exact trigger_future_props env st key args fuel

/-- Witness for C2: on a driver with no listeners at all, `trigger('k')`
returns `Promise.resolve()` at once, and that future is settled (time 0,
resolved) under any outcome assignment. -/
theorem C2_trigger_future_witness :
    triggerRun (fun _ => pureBeh) initialState (.vstr "k") [] 3 =
      (none, some ⟨initialState, [], [], .presolved⟩) ∧
    settleOk (fun _ => false) Prom.presolved = true := by
  have h := C2_trigger_future (fun _ => pureBeh) initialState (.vstr "k") [] 3
  have h1 := h.1 (by decide) rfl
  refine ⟨h1, ?_⟩
  have h2 := (h.2 ⟨initialState, [], [], .presolved⟩ (by rw [h1])).2.1
    (fun _ => false)
  exact h2

/-! ## Error containment (claim C3) -/

/-- C3: for a valid key, listener misbehaviour is fully contained: `trigger`
surfaces no error whatever the listeners do (only `InvalidKey`, covered by
the validation theorem, is ever surfaced); the returned future resolves for
every outcome of the pending computations (an eventually-failing computation
never rejects it); and swapping any callback's return behaviour — normal
return, returned promise, or synchronous throw — leaves the dispatch state
and the invocation log unchanged: a synchronously throwing member is
isolated and dispatch continues to the next member exactly as if it had
returned. -/
theorem C3_listener_isolation (env env' : Nat → CbBeh) (st : DriverState)
    (s : String) (args : Args) (fuel : Nat) (hs : s ≠ "")
    (heff : ∀ c, (env c).effects = (env' c).effects) :
    (triggerRun env st (.vstr s) args fuel).1 = none ∧
    (∀ r, (triggerRun env st (.vstr s) args fuel).2 = some r →
      ∀ ok, settleOk ok r.future = true) ∧
    ((triggerRun env st (.vstr s) args fuel).2.map fun r => (r.st, r.log)) =
      ((triggerRun env' st (.vstr s) args fuel).2.map fun r => (r.st, r.log)) := by
  have hk : keyIsInvalid (.vstr s) = false := keyIsInvalid_vstr_false s hs
  refine ⟨trigger_fst_none_of_valid env st _ args fuel hk, ?_, ?_⟩
  · intro r hr
    exact (trigger_future_props env st _ args fuel r hr).2.1
  · cases hreg : regGet st.reg (keyString (.vstr s)) with
    | none =>
      rw [triggerRun_valid_none env st _ args fuel hk hreg,
        triggerRun_valid_none env' st _ args fuel hk hreg]
    | some sid =>
      rw [triggerRun_valid_some env st _ args fuel sid hk hreg,
        triggerRun_valid_some env' st _ args fuel sid hk hreg]
      have hmap := forEach_ret_irrelevant env env' heff args sid fuel 0 st [] [] []
      rcases h1 : forEachFuel env args sid fuel 0 st [] [] with _ | ⟨st1, lg1, pr1⟩
      · rcases h2 : forEachFuel env' args sid fuel 0 st [] [] with _ | ⟨st2, lg2, pr2⟩
        · simp only [h1, h2]
        · rw [h1, h2] at hmap; simp at hmap
      · rcases h2 : forEachFuel env' args sid fuel 0 st [] [] with _ | ⟨st2, lg2, pr2⟩
        · rw [h1, h2] at hmap; simp at hmap
        · rw [h1, h2] at hmap
          simp only [h1, h2]
          simp at hmap ⊢
          exact hmap

/-- Witness for C3: two listeners under `"k"`; in one run the first throws
synchronously, in the other it returns normally — no error either way and
the same invocation log, so the second listener ran despite the throw. -/
theorem C3_listener_isolation_witness :
    (triggerRun (fun c => if c = 0 then ⟨[], .rthrow⟩ else pureBeh)
      ⟨[[some 0, some 1]], [("k", 0)]⟩ (.vstr "k") [] 5).1 = none ∧
    ((triggerRun (fun c => if c = 0 then ⟨[], .rthrow⟩ else pureBeh)
        ⟨[[some 0, some 1]], [("k", 0)]⟩ (.vstr "k") [] 5).2.map
      fun r => (r.st, r.log)) =
    ((triggerRun (fun _ => pureBeh)
        ⟨[[some 0, some 1]], [("k", 0)]⟩ (.vstr "k") [] 5).2.map
      fun r => (r.st, r.log)) := by
  have h := C3_listener_isolation
    (fun c => if c = 0 then ⟨[], .rthrow⟩ else pureBeh) (fun _ => pureBeh)
    ⟨[[some 0, some 1]], [("k", 0)]⟩ "k" [] 5 (by decide)
    (by intro c; by_cases hc : c = 0 <;> simp [hc, pureBeh])
  exact ⟨h.1, h.2.2⟩

/-! ## Live dispatch without mutation (claim C1, amended part) -/

/-- C1 amended: `trigger` iterates the live Listener Set, not a snapshot
copy.  When no registered member mutates the registry during dispatch, the
run invokes exactly the members registered at trigger time, in insertion
order, passing the original arguments unchanged to each, and leaves the
registry untouched.  (A callback that does subscribe during dispatch changes
the in-progress run — see the counterexample.) -/
theorem C1_live_dispatch (env : Nat → CbBeh) (st : DriverState) (s : String)
    (args : Args) (fuel : Nat) (hs : s ≠ "")
    (heff : ∀ c ∈ keyMembers st s, (env c).effects = [])
    (hfuel : (keySlots st s).length < fuel) :
    ((triggerRun env st (.vstr s) args fuel).2.map fun r => (r.st, r.log)) =
      some (st, (keyMembers st s).map fun c => (c, args)) := by
  have hk : keyIsInvalid (.vstr s) = false := keyIsInvalid_vstr_false s hs
  cases hreg : regGet st.reg s with
  | none =>
    have hnil : keyMembers st s = [] := by
      simp [keyMembers, keySlots, keyString_vstr, hreg, setMembers]
    rw [triggerRun_valid_none env st _ args fuel hk hreg]
    simp [hnil]
  | some sid =>
    have hslots : keySlots st s = heapGet st.heap sid := by
      simp [keySlots, keyString_vstr, hreg]
    have hmem : keyMembers st s = setMembers (heapGet st.heap sid) := by
      rw [keyMembers, hslots]
    have heff' : ∀ c ∈ setMembers ((heapGet st.heap sid).drop 0),
        (env c).effects = [] := by
      intro c hc
      exact heff c (by rw [hmem]; simpa using hc)
    rw [triggerRun_valid_some env st _ args fuel sid hk hreg]
    rw [forEach_no_mutation env args sid fuel 0 st [] [] heff'
      (by rw [← hslots] at *; omega)]
    simp [hmem]

/-- Witness for C1: one inert listener under `"k"`; `trigger` invokes
exactly it, with the arguments passed through, and leaves the state as it
was. -/
theorem C1_live_dispatch_witness :
    ((triggerRun (fun _ => pureBeh) cexSt (.vstr "k") [] 2).2.map
      fun r => (r.st, r.log)) = some (cexSt, [(0, [])]) := by
  have h := C1_live_dispatch (fun _ => pureBeh) cexSt "k" [] 2 (by decide)
    (fun c _ => rfl) (by decide)
  simpa using h

/-! ## Set-based deduplication (claim C5) -/

/-- C5: subscribing the same callback reference twice under one (fresh,
valid) key stores it once — the Listener Set still holds exactly that one
member, `listenerCount` is 1 — and one `trigger` invokes the callback
exactly once. -/
theorem subscribeFn_fresh (st : DriverState) (s : String) (c : Nat)
    (h : regGet st.reg s = none) :
    subscribeFn st s c =
      ⟨st.heap ++ [[some c]], st.reg ++ [(s, st.heap.length)]⟩ := by
  rw [subscribeFn, h]

theorem subscribeFn_existing (st : DriverState) (s : String) (c : Nat) (n : Nat)
    (h : regGet st.reg s = some n) :
    subscribeFn st s c =
      ⟨st.heap.set n (setAdd (heapGet st.heap n) c), st.reg⟩ := by
  rw [subscribeFn, h]

theorem C5_dedup (st : DriverState) (s : String) (c : Nat) (env : Nat → CbBeh)
    (args : Args) (hs : s ≠ "") (hfresh : regGet st.reg s = none)
    (hbeh : env c = pureBeh) :
    getListenerCount (subscribeFn (subscribeFn st s c) s c) s = 1 ∧
    keyMembers (subscribeFn (subscribeFn st s c) s c) s = [c] ∧
    ((triggerRun env (subscribeFn (subscribeFn st s c) s c) (.vstr s) args 2).2.map
      fun r => r.log) = some [(c, args)] := by
  have hst1 := subscribeFn_fresh st s c hfresh
  have hreg1 : regGet (subscribeFn st s c).reg s = some st.heap.length := by
    rw [hst1]; exact regGet_append_right _ _ _ hfresh
  have hheap1 : heapGet (subscribeFn st s c).heap st.heap.length = [some c] := by
    rw [hst1]; exact heapGet_append_length _ _
  have hadd : setAdd [some c] c = [some c] := by
    simp [setAdd, setHas, setMembers]
  have hst2 : subscribeFn (subscribeFn st s c) s c =
      ⟨(subscribeFn st s c).heap.set st.heap.length [some c],
        (subscribeFn st s c).reg⟩ := by
    rw [subscribeFn_existing _ s c _ hreg1, hheap1, hadd]
  have hlen1 : st.heap.length < (subscribeFn st s c).heap.length := by
    rw [hst1]; simp
  have hG : heapGet (subscribeFn (subscribeFn st s c) s c).heap
      st.heap.length = [some c] := by
    rw [hst2]; exact heapGet_set_self _ _ _ hlen1
  have hreg2 : regGet (subscribeFn (subscribeFn st s c) s c).reg s =
      some st.heap.length := by
    rw [hst2]; exact hreg1
  refine ⟨?_, ?_, ?_⟩
  · simp [getListenerCount, hreg2, hG, setSize, setMembers]
  · simp [keyMembers, keySlots, hreg2, hG, setMembers]
  · have hk := keyIsInvalid_vstr_false s hs
    rw [triggerRun_valid_some env _ _ args 2 st.heap.length hk hreg2]
    have heff' : ∀ x ∈ setMembers
        ((heapGet (subscribeFn (subscribeFn st s c) s c).heap
          st.heap.length).drop 0), (env x).effects = [] := by
      rw [hG]
      intro x hx
      have hxc : x = c := by simpa [setMembers] using hx
      rw [hxc, hbeh]
      rfl
    have hlen : (heapGet (subscribeFn (subscribeFn st s c) s c).heap
        st.heap.length).length - 0 < 2 := by
      rw [hG]; simp
    rw [forEach_no_mutation env args st.heap.length 2 0 _ [] [] heff' hlen]
    simp [hG, setMembers]

/-- Witness for C5: callback `7` subscribed twice under the fresh key
`"k"`: one stored listener, and one `trigger` invokes it exactly once. -/
theorem C5_dedup_witness :
    getListenerCount (subscribeFn (subscribeFn initialState "k" 7) "k" 7) "k"
        = 1 ∧
    ((triggerRun (fun _ => pureBeh)
        (subscribeFn (subscribeFn initialState "k" 7) "k" 7)
        (.vstr "k") [] 2).2.map fun r => r.log) = some [(7, [])] := by
  have h := C5_dedup initialState "k" 7 (fun _ => pureBeh) [] (by decide)
    rfl rfl
  exact ⟨h.1, h.2.2⟩

/-! ## Set mutation lemmas -/

theorem setHas_iff (s : SetData) (c : Nat) :
    setHas s c = true ↔ c ∈ setMembers s := by
  simp [setHas]

theorem setMembers_setDelete (s : SetData) (c : Nat) :
    setMembers (setDelete s c) = (setMembers s).erase c := by
  induction s with
  | nil => simp [setDelete, setMembers]
  | cons slot rest ih =>
    cases slot with
    | none => simpa [setDelete, setMembers] using ih
    | some d =>
      by_cases hd : d = c
      · subst hd
        simp [setDelete, setMembers]
      · rw [setDelete, if_neg (by simpa using hd)]
        simp only [setMembers, List.filterMap_cons] at ih ⊢
        simp only [id]
        rw [List.erase_cons_tail (by simpa using hd)]
        rw [← ih]

theorem setDelete_not_mem (s : SetData) (c : Nat)
    (h : c ∉ setMembers s) : setDelete s c = s := by
  induction s with
  | nil => rfl
  | cons slot rest ih =>
    simp only [setMembers, List.filterMap_cons] at h
    cases slot with
    | none =>
      rw [setDelete, if_neg (by simp)]
      rw [ih (by simpa [setMembers] using h)]
    | some d =>
      simp only [id] at h
      have hd : d ≠ c := fun he => h (he ▸ List.mem_cons_self d _)
      rw [setDelete, if_neg (by simpa using hd)]
      rw [ih (fun hc => h (List.mem_cons_of_mem d hc))]

theorem not_mem_setDelete_of_wf (s : SetData) (c : Nat) (h : SetWF s) :
    c ∉ setMembers (setDelete s c) := by
  rw [setMembers_setDelete]
  intro hc
  exact ((List.Nodup.mem_erase_iff h).mp hc).1 rfl

theorem SetWF_setDelete (s : SetData) (c : Nat) (h : SetWF s) :
    SetWF (setDelete s c) := by
  rw [SetWF, setMembers_setDelete]
  exact h.erase c

theorem setMembers_setAdd_not_has (s : SetData) (c : Nat)
    (h : ¬ c ∈ setMembers s) :
    setMembers (setAdd s c) = setMembers s ++ [c] := by
  rw [setAdd, if_neg (by simpa [setHas_iff] using h)]
  simp [setMembers]

theorem SetWF_setAdd (s : SetData) (c : Nat) (h : SetWF s) :
    SetWF (setAdd s c) := by
  by_cases hc : c ∈ setMembers s
  · rw [setAdd, if_pos (setHas_iff s c |>.mpr hc)]
    exact h
  · rw [SetWF, setMembers_setAdd_not_has s c hc]
    simpa [List.nodup_append] using ⟨h, hc⟩

theorem setSize_setAdd_ge (s : SetData) (c : Nat) :
    setSize s ≤ setSize (setAdd s c) := by
  by_cases hc : c ∈ setMembers s
  · rw [setAdd, if_pos (setHas_iff s c |>.mpr hc)]
  · rw [setSize, setSize, setMembers_setAdd_not_has s c hc]
    simp

/-! ## Unsubscribe handle unfoldings -/

theorem unsubscribeFn_none (st : DriverState) (k : String) (c : Nat)
    (h : regGet st.reg k = none) : unsubscribeFn st k c = st := by
  rw [unsubscribeFn, h]

theorem unsubscribeFn_some (st : DriverState) (k : String) (c : Nat)
    (sid : Nat) (h : regGet st.reg k = some sid) :
    unsubscribeFn st k c =
      if setSize (setDelete (heapGet st.heap sid) c) = 0 then
        ⟨st.heap.set sid (setDelete (heapGet st.heap sid) c), regErase st.reg k⟩
      else ⟨st.heap.set sid (setDelete (heapGet st.heap sid) c), st.reg⟩ := by
  rw [unsubscribeFn, h]

/-- Two registered keys sharing a set id are the same key (no `Set` object is
shared between keys). -/
theorem reg_sid_inj (reg : List (String × Nat))
    (hsids : (reg.map (·.2)).Nodup) (k1 k2 : String) (v : Nat)
    (h1 : (k1, v) ∈ reg) (h2 : (k2, v) ∈ reg) : k1 = k2 := by
  have := List.inj_on_of_nodup_map hsids h1 h2 rfl
  exact congrArg Prod.fst this

theorem keyMembers_of_none (st : DriverState) (k : String)
    (h : regGet st.reg k = none) : keyMembers st k = [] := by
  simp [keyMembers, keySlots, h, setMembers]

theorem keyMembers_of_some (st : DriverState) (k : String) (sid : Nat)
    (h : regGet st.reg k = some sid) :
    keyMembers st k = setMembers (heapGet st.heap sid) := by
  simp [keyMembers, keySlots, h]

/-- Replacing the set object of key `k` (and possibly erasing `k`'s entry)
leaves every other key's membership untouched. -/
theorem keyMembers_other (st : DriverState) (sid : Nat) (x : SetData)
    (k k' : String) (hsids : (st.reg.map (·.2)).Nodup)
    (hk : (k, sid) ∈ st.reg) (hne : k' ≠ k) (reg' : List (String × Nat))
    (hreg' : regGet reg' k' = regGet st.reg k') :
    keyMembers ⟨st.heap.set sid x, reg'⟩ k' = keyMembers st k' := by
  cases hr : regGet st.reg k' with
  | none =>
    rw [keyMembers_of_none ⟨st.heap.set sid x, reg'⟩ k' (by rw [hreg', hr]),
      keyMembers_of_none st k' hr]
  | some sid' =>
    have hmem' : (k', sid') ∈ st.reg := regGet_mem _ _ _ hr
    have hne' : sid ≠ sid' := fun he =>
      hne (reg_sid_inj st.reg hsids k' k sid' hmem' (he ▸ hk))
    rw [keyMembers_of_some ⟨st.heap.set sid x, reg'⟩ k' sid' (by rw [hreg', hr]),
      keyMembers_of_some st k' sid' hr]
    show setMembers (heapGet (st.heap.set sid x) sid') = _
    rw [heapGet_set_ne _ _ _ _ hne']

/-! ## Unsubscribe handles (claim C6) -/

/-- C6: the unsubscribe closure is an idempotent one-shot token: a second
invocation leaves the state exactly where the first put it; it removes
exactly the callback it was issued for from exactly its key (all other keys'
memberships are untouched); after `cleanup()` it is a safe no-op; and the
listener count stays a natural number, never negative.  (The closure is a
total function of the state, so it never throws.) -/
theorem C6_unsubscribe_handle (st : DriverState) (k : String) (c : Nat)
    (hwf : StateWF st) :
    unsubscribeFn (unsubscribeFn st k c) k c = unsubscribeFn st k c ∧
    keyMembers (unsubscribeFn st k c) k = (keyMembers st k).erase c ∧
    (∀ k', k' ≠ k → keyMembers (unsubscribeFn st k c) k' = keyMembers st k') ∧
    unsubscribeFn (cleanupFn st) k c = cleanupFn st ∧
    0 ≤ getListenerCount (unsubscribeFn st k c) k := by
  obtain ⟨hkeys, hsids, hbound, hsets⟩ := hwf
  have hclean : unsubscribeFn (cleanupFn st) k c = cleanupFn st := rfl
  cases hreg : regGet st.reg k with
  | none =>
    have hid := unsubscribeFn_none st k c hreg
    refine ⟨by rw [hid, hid], ?_, fun k' _ => by rw [hid], hclean, Nat.zero_le _⟩
    rw [hid, keyMembers_of_none st k hreg]
    simp
  | some sid =>
    have hmem0 := keyMembers_of_some st k sid hreg
    have hsid_mem : (k, sid) ∈ st.reg := regGet_mem _ _ _ hreg
    have hswf : SetWF (heapGet st.heap sid) := hsets _ hsid_mem
    have hb : sid < st.heap.length := hbound _ hsid_mem
    have hunf := unsubscribeFn_some st k c sid hreg
    by_cases hz : setSize (setDelete (heapGet st.heap sid) c) = 0
    · have hst1 : unsubscribeFn st k c =
          ⟨st.heap.set sid (setDelete (heapGet st.heap sid) c),
            regErase st.reg k⟩ := by
        rw [hunf, if_pos hz]
      have hnone1 : regGet (unsubscribeFn st k c).reg k = none := by
        rw [hst1]; exact regGet_erase_self st.reg k hkeys
      refine ⟨unsubscribeFn_none _ k c hnone1, ?_, ?_, hclean, Nat.zero_le _⟩
      · rw [keyMembers_of_none _ _ hnone1, hmem0, ← setMembers_setDelete]
        have hzl : setMembers (setDelete (heapGet st.heap sid) c) = [] := by
          rw [setSize] at hz
          exact List.length_eq_zero.mp hz
        rw [hzl]
      · intro k' hk'
        rw [hst1]
        exact keyMembers_other st sid _ k k' hsids hsid_mem hk' _
          (regGet_erase_ne st.reg k k' hk')
    · have hst1 : unsubscribeFn st k c =
          ⟨st.heap.set sid (setDelete (heapGet st.heap sid) c), st.reg⟩ := by
        rw [hunf, if_neg hz]
      have hreg1 : regGet (unsubscribeFn st k c).reg k = some sid := by
        rw [hst1]; exact hreg
      have hG1 : heapGet (unsubscribeFn st k c).heap sid =
          setDelete (heapGet st.heap sid) c := by
        rw [hst1]; exact heapGet_set_self _ _ _ hb
      have hnd : setDelete (setDelete (heapGet st.heap sid) c) c =
          setDelete (heapGet st.heap sid) c :=
        setDelete_not_mem _ c (not_mem_setDelete_of_wf _ c hswf)
      refine ⟨?_, ?_, ?_, hclean, Nat.zero_le _⟩
      · rw [unsubscribeFn_some _ k c sid hreg1, hG1, hnd, if_neg hz, hst1]
        simp [List.set_set]
      · rw [keyMembers_of_some _ k sid hreg1, hG1, setMembers_setDelete, hmem0]
      · intro k' hk'
        rw [hst1]
        exact keyMembers_other st sid _ k k' hsids hsid_mem hk' st.reg rfl

/-- Witness for C6: the handle for `("k", 3)` on a one-listener driver:
removing twice equals removing once, and after removal the key holds no
members. -/
theorem C6_unsubscribe_handle_witness :
    unsubscribeFn (unsubscribeFn ⟨[[some 3]], [("k", 0)]⟩ "k" 3) "k" 3 =
      unsubscribeFn ⟨[[some 3]], [("k", 0)]⟩ "k" 3 ∧
    keyMembers (unsubscribeFn ⟨[[some 3]], [("k", 0)]⟩ "k" 3) "k" = [] := by
  have h := C6_unsubscribe_handle ⟨[[some 3]], [("k", 0)]⟩ "k" 3
    (by unfold StateWF SetWF; refine ⟨by decide, by decide, by decide, by decide⟩)
  exact ⟨h.1, by rw [h.2.1]; decide⟩

/-! ## The reachable-state invariant (claim C10) -/

theorem inv_initial : DriverInv initialState := by
  unfold DriverInv StateWF RegNonempty initialState
  simp

theorem inv_subscribeFn (st : DriverState) (k : String) (c : Nat)
    (h : DriverInv st) : DriverInv (subscribeFn st k c) := by
  obtain ⟨⟨hkeys, hsids, hbound, hsets⟩, hne⟩ := h
  cases hreg : regGet st.reg k with
  | none =>
    rw [subscribeFn_fresh st k c hreg]
    have hknotin : k ∉ st.reg.map (·.1) := (regGet_none_iff _ _).mp hreg
    have hsidfresh : st.heap.length ∉ st.reg.map (·.2) := by
      intro hv
      obtain ⟨e, he, hev⟩ := List.mem_map.mp hv
      exact absurd (hev ▸ hbound e he) (lt_irrefl _)
    refine ⟨⟨?_, ?_, ?_, ?_⟩, ?_⟩
    · rw [List.map_append]
      refine hkeys.append (List.nodup_singleton _) ?_
      intro a ha hb
      simp at hb
      subst hb
      exact hknotin ha
    · rw [List.map_append]
      refine hsids.append (List.nodup_singleton _) ?_
      intro a ha hb
      simp at hb
      subst hb
      exact hsidfresh ha
    · intro e he
      rcases List.mem_append.mp he with h1 | h2
      · have := hbound e h1; simp; omega
      · obtain rfl : e = (k, st.heap.length) := by simpa using h2
        simp
    · intro e he
      rcases List.mem_append.mp he with h1 | h2
      · rw [heapGet_append_lt _ _ _ (hbound e h1)]
        exact hsets e h1
      · obtain rfl : e = (k, st.heap.length) := by simpa using h2
        rw [heapGet_append_length]
        simp [SetWF, setMembers]
    · intro e he
      rcases List.mem_append.mp he with h1 | h2
      · rw [heapGet_append_lt _ _ _ (hbound e h1)]
        exact hne e h1
      · obtain rfl : e = (k, st.heap.length) := by simpa using h2
        rw [heapGet_append_length]
        simp [setSize, setMembers]
  | some sid =>
    rw [subscribeFn_existing st k c sid hreg]
    have hkmem : (k, sid) ∈ st.reg := regGet_mem _ _ _ hreg
    refine ⟨⟨hkeys, hsids, ?_, ?_⟩, ?_⟩
    · intro e he
      simpa using hbound e he
    · intro e he
      by_cases hes : e.2 = sid
      · rw [hes, heapGet_set_self _ _ _ (hbound _ hkmem)]
        exact SetWF_setAdd _ _ (hsets _ hkmem)
      · rw [heapGet_set_ne _ _ _ _ (fun h2 => hes h2.symm)]
        exact hsets e he
    · intro e he
      by_cases hes : e.2 = sid
      · rw [hes, heapGet_set_self _ _ _ (hbound _ hkmem)]
        exact le_trans (hne _ hkmem) (setSize_setAdd_ge _ _)
      · rw [heapGet_set_ne _ _ _ _ (fun h2 => hes h2.symm)]
        exact hne e he

theorem inv_unsubscribeFn (st : DriverState) (k : String) (c : Nat)
    (h : DriverInv st) : DriverInv (unsubscribeFn st k c) := by
  obtain ⟨⟨hkeys, hsids, hbound, hsets⟩, hne⟩ := h
  cases hreg : regGet st.reg k with
  | none =>
    rw [unsubscribeFn_none st k c hreg]
    exact ⟨⟨hkeys, hsids, hbound, hsets⟩, hne⟩
  | some sid =>
    have hkmem : (k, sid) ∈ st.reg := regGet_mem _ _ _ hreg
    rw [unsubscribeFn_some st k c sid hreg]
    by_cases hz : setSize (setDelete (heapGet st.heap sid) c) = 0
    · rw [if_pos hz]
      have hsub := regErase_sublist st.reg k
      have hsubset : ∀ e ∈ regErase st.reg k, e ∈ st.reg :=
        fun e he => hsub.subset he
      have hknotin : k ∉ (regErase st.reg k).map (·.1) := by
        rw [← regGet_none_iff]
        exact regGet_erase_self st.reg k hkeys
      have hfar : ∀ e ∈ regErase st.reg k, e.2 ≠ sid := by
        intro e he hes
        have he1 : e.1 = k :=
          reg_sid_inj st.reg hsids e.1 k e.2 (hsubset e he) (hes ▸ hkmem)
        have hin : e.1 ∈ (regErase st.reg k).map (·.1) :=
          List.mem_map_of_mem _ he
        rw [he1] at hin
        exact hknotin hin
      refine ⟨⟨?_, ?_, ?_, ?_⟩, ?_⟩
      · exact hkeys.sublist (hsub.map _)
      · exact hsids.sublist (hsub.map _)
      · intro e he
        simpa using hbound e (hsubset e he)
      · intro e he
        rw [heapGet_set_ne _ _ _ _ (fun h2 => hfar e he h2.symm)]
        exact hsets e (hsubset e he)
      · intro e he
        rw [heapGet_set_ne _ _ _ _ (fun h2 => hfar e he h2.symm)]
        exact hne e (hsubset e he)
    · rw [if_neg hz]
      refine ⟨⟨hkeys, hsids, ?_, ?_⟩, ?_⟩
      · intro e he
        simpa using hbound e he
      · intro e he
        by_cases hes : e.2 = sid
        · rw [hes, heapGet_set_self _ _ _ (hbound _ hkmem)]
          exact SetWF_setDelete _ _ (hsets _ hkmem)
        · rw [heapGet_set_ne _ _ _ _ (fun h2 => hes h2.symm)]
          exact hsets e he
      · intro e he
        by_cases hes : e.2 = sid
        · rw [hes, heapGet_set_self _ _ _ (hbound _ hkmem)]
          omega
        · rw [heapGet_set_ne _ _ _ _ (fun h2 => hes h2.symm)]
          exact hne e he

theorem inv_cleanupFn (st : DriverState) : DriverInv (cleanupFn st) := by
  unfold DriverInv StateWF RegNonempty cleanupFn
  simp

theorem inv_applyOp (st : DriverState) (op : BusOp) (h : DriverInv st) :
    DriverInv (applyOp st op) := by
  cases op with
  | sub key cb =>
    cases hk : keyIsInvalid key with
    | true =>
      simp only [applyOp, subscribeRun, hk, if_pos]
      exact h
    | false =>
      cases hcb : callbackIsInvalid cb with
      | true =>
        simp only [applyOp, subscribeRun, hk, hcb, Bool.false_eq_true,
          if_false, if_pos]
        exact h
      | false =>
        simp only [applyOp, subscribeRun, hk, hcb, Bool.false_eq_true, if_false]
        exact inv_subscribeFn _ _ _ h
  | unsub k c => exact inv_unsubscribeFn _ _ _ h
  | clean => exact inv_cleanupFn _

theorem inv_applyOps (st : DriverState) (ops : List BusOp) (h : DriverInv st) :
    DriverInv (applyOps st ops) := by
  induction ops generalizing st with
  | nil => exact h
  | cons op rest ih => exact ih _ (inv_applyOp st op h)

/-- C10: after any sequence of `subscribe` calls (valid or invalid),
unsubscribe-handle invocations and `cleanup()` calls against a fresh driver,
every key present in the registry map holds a non-empty Listener Set, and
`getEventKeys()` enumerates exactly the keys for which `hasListeners` is
true — equivalently, those with `getListenerCount ≥ 1`. -/
theorem C10_registry_invariant (ops : List BusOp) :
    (∀ e ∈ (applyOps initialState ops).reg,
      1 ≤ setSize (heapGet (applyOps initialState ops).heap e.2)) ∧
    ∀ k, (k ∈ getEventKeys (applyOps initialState ops) ↔
        hasListeners (applyOps initialState ops) k = true) ∧
      (k ∈ getEventKeys (applyOps initialState ops) ↔
        1 ≤ getListenerCount (applyOps initialState ops) k) := by
  obtain ⟨hwf, hne⟩ := inv_applyOps initialState ops inv_initial
  refine ⟨hne, ?_⟩
  intro k
  have hchar : k ∈ getEventKeys (applyOps initialState ops) ↔
      1 ≤ getListenerCount (applyOps initialState ops) k := by
    cases hreg : regGet (applyOps initialState ops).reg k with
    | none =>
      have hnotin := (regGet_none_iff _ _).mp hreg
      simp [getEventKeys, getListenerCount, hreg]
      intro v hv
      exact hnotin (List.mem_map_of_mem _ hv)
    | some sid =>
      have hmem := regGet_mem _ _ _ hreg
      have hin : k ∈ (applyOps initialState ops).reg.map (·.1) :=
        List.mem_map_of_mem _ hmem
      simp [getEventKeys, getListenerCount, hreg, hin]
      exact hne _ hmem
  refine ⟨?_, hchar⟩
  rw [hchar]
  simp [hasListeners]
  omega

/-! ## Throttle (claim C8) -/

/-- C8: an invocation of a throttled wrapper at `now` with
`now - lastCallTime ≥ delay` fires immediately with these arguments, updates
the timestamp and cancels any pending trailing call; within the window it
buffers the arguments (last-write-wins) and schedules a trailing timer for
the remaining time only when none is scheduled; hence from a fresh wrapper a
first call at `t₁ ≥ delay` fires immediately and two further calls inside
its window produce exactly one trailing invocation, at `t₁ + delay`, with
the last buffered arguments. -/
theorem C8_throttle (delay : Nat) (st : ThrottleState) (now : Nat)
    (args : Args) (t₁ t₂ t₃ : Nat) (a₁ a₂ a₃ : Args)
    (h₁ : delay ≤ t₁) (h₁₂ : t₁ ≤ t₂) (h₂ : t₂ < t₁ + delay)
    (h₂₃ : t₂ ≤ t₃) (h₃ : t₃ < t₁ + delay) :
    (delay ≤ now - st.lastCallTime →
      throttleCall delay st now args = (⟨now, none, none⟩, [(now, args)])) ∧
    (now - st.lastCallTime < delay → st.timeoutId = none →
      throttleCall delay st now args =
        (⟨st.lastCallTime, some (now + (delay - (now - st.lastCallTime))),
          some args⟩, [])) ∧
    (∀ ft, now - st.lastCallTime < delay → st.timeoutId = some ft →
      throttleCall delay st now args =
        (⟨st.lastCallTime, some ft, some args⟩, [])) ∧
    throttleRun delay throttleInit [(t₁, a₁), (t₂, a₂), (t₃, a₃)] =
      [(t₁, a₁), (t₁ + delay, a₃)] := by
  refine ⟨?_, ?_, ?_, ?_⟩
  · intro h
    simp only [throttleCall, if_pos h]
  · intro h hnone
    simp only [throttleCall, hnone]
    rw [if_neg (show ¬ delay ≤ now - st.lastCallTime by omega)]
  · intro ft h hsome
    simp only [throttleCall, hsome]
    rw [if_neg (show ¬ delay ≤ now - st.lastCallTime by omega)]
  · have e2 : t₂ + (delay - (t₂ - t₁)) = t₁ + delay := by omega
    have s1 : throttleStep delay throttleInit t₁ a₁ =
        (⟨t₁, none, none⟩, [(t₁, a₁)]) := by
      simp only [throttleStep, throttleInit, throttleCall]
      rw [if_pos (by omega : delay ≤ t₁ - 0)]
    have s2 : throttleStep delay ⟨t₁, none, none⟩ t₂ a₂ =
        (⟨t₁, some (t₁ + delay), some a₂⟩, []) := by
      simp only [throttleStep, throttleCall]
      rw [if_neg (by omega : ¬ delay ≤ t₂ - t₁)]
      rw [e2]
    have s3 : throttleStep delay ⟨t₁, some (t₁ + delay), some a₂⟩ t₃ a₃ =
        (⟨t₁, some (t₁ + delay), some a₃⟩, []) := by
      simp only [throttleStep]
      rw [if_neg (by omega : ¬ t₁ + delay ≤ t₃)]
      simp only [throttleCall]
      rw [if_neg (by omega : ¬ delay ≤ t₃ - t₁)]
    simp only [throttleRun, s1, s2, s3, throttleFire]
    simp

/-- Witness for C8: throttle(100) from a fresh wrapper, calls at 100, 150
and 160 ms: immediate fire at 100 with the first arguments, one trailing
fire at 200 with the third arguments. -/
theorem C8_throttle_witness :
    throttleRun 100 throttleInit [(100, [1]), (150, [2]), (160, [3])] =
      [(100, [1]), (200, [3])] := by
  simpa using
    (C8_throttle 100 throttleInit 0 [] 100 150 160 [1] [2] [3]
      (by omega) (by omega) (by omega) (by omega) (by omega)).2.2.2

end RippleEffect
